import Mathlib

/-
Verification development for a single-process proof-of-work blockchain node
(Rust, `src/main.rs`).  The live code path uses the types `Transaction`,
`BlockHeader`, `Block` declared in `main.rs` together with
`hash_block_header`, `merkle_root`, `meets_difficulty`, `mine_block`,
`make_genesis` and the sled-backed `ChainDB` (`save_block`, `get_latest`).

Shallow-embedding conventions:
- machine integers (`u32`, `u64`, `i64`) are `Nat`/`Int`; SHA-256 words are
  `Nat` reduced modulo 2^32 explicitly;
- byte sequences are `List Nat` (each entry < 256);
- SHA-256 (the `sha2` crate) is implemented from the FIPS 180-4 algorithm;
- `serde_json` serialization of the derived structs is implemented
  character-exactly (fixed field order, serde's string-escaping rules);
  deserialization is a parser for that grammar which fails (`none`) on
  input that does not decode, modelling `serde_json::from_slice::<Block>`;
- the sled store is a map from keys to values; keys and values are byte
  strings which the program only ever populates with valid UTF-8 (hex hash
  strings and JSON), so they are modelled as `String`;
- `anyhow::Result` is `Except Unit`, the error payload elided;
- the random nonce source of `mine_block` is an explicit stream
  `Nat → Nat`, and the unbounded `loop` is given explicit fuel, so
  `mine_block` returns `Option Block` (`none` = fuel exhausted).
-/

-- ---------------------------------------------------------------------------
-- SHA-256 (model of the `sha2` crate), over bytes as `List Nat`
-- ---------------------------------------------------------------------------

/-- Reduce a natural number to a 32-bit word. -/
def w32 (n : Nat) : Nat := n % 4294967296

/-- Right-rotate of a 32-bit word. -/
def rotr32 (x n : Nat) : Nat := w32 ((x >>> n) ||| (x <<< (32 - n)))

/-- SHA-256 big sigma-0. -/
def bsig0 (x : Nat) : Nat := (rotr32 x 2) ^^^ (rotr32 x 13) ^^^ (rotr32 x 22)

/-- SHA-256 big sigma-1. -/
def bsig1 (x : Nat) : Nat := (rotr32 x 6) ^^^ (rotr32 x 11) ^^^ (rotr32 x 25)

/-- SHA-256 small sigma-0. -/
def ssig0 (x : Nat) : Nat := (rotr32 x 7) ^^^ (rotr32 x 18) ^^^ (x >>> 3)

/-- SHA-256 small sigma-1. -/
def ssig1 (x : Nat) : Nat := (rotr32 x 17) ^^^ (rotr32 x 19) ^^^ (x >>> 10)

/-- SHA-256 choice function. -/
def chFn (e f g : Nat) : Nat := (e &&& f) ^^^ ((e ^^^ 4294967295) &&& g)

/-- SHA-256 majority function. -/
def majFn (a b c : Nat) : Nat := (a &&& b) ^^^ (a &&& c) ^^^ (b &&& c)

/-- The 64 SHA-256 round constants (FIPS 180-4, written in decimal). -/
def K256 : List Nat :=
  [1116352408, 1899447441, 3049323471, 3921009573, 961987163, 1508970993, 2453635748, 2870763221,
   3624381080, 310598401, 607225278, 1426881987, 1925078388, 2162078206, 2614888103, 3248222580,
   3835390401, 4022224774, 264347078, 604807628, 770255983, 1249150122, 1555081692, 1996064986,
   2554220882, 2821834349, 2952996808, 3210313671, 3336571891, 3584528711, 113926993, 338241895,
   666307205, 773529912, 1294757372, 1396182291, 1695183700, 1986661051, 2177026350, 2456956037,
   2730485921, 2820302411, 3259730800, 3345764771, 3516065817, 3600352804, 4094571909, 275423344,
   430227734, 506948616, 659060556, 883997877, 958139571, 1322822218, 1537002063, 1747873779,
   1955562222, 2024104815, 2227730452, 2361852424, 2428436474, 2756734187, 3204031479, 3329325298]

/-- Working state of the SHA-256 compression function: eight 32-bit words. -/
structure Sha256State where
  a : Nat
  b : Nat
  c : Nat
  d : Nat
  e : Nat
  f : Nat
  g : Nat
  h : Nat

/-- Initial SHA-256 state. -/
def initSha : Sha256State :=
  ⟨1779033703, 3144134277, 1013904242, 2773480762,
   1359893119, 2600822924, 528734635, 1541459225⟩

/-- Extend a message-schedule word list by one word. -/
def scheduleStep (ws : List Nat) : List Nat :=
  let n := ws.length
  let g := fun i => ws.getD i 0
  ws ++ [w32 (ssig1 (g (n - 2)) + g (n - 7) + ssig0 (g (n - 15)) + g (n - 16))]

/-- Expand a 16-word block into the 64-word message schedule. -/
def schedule64 (ws : List Nat) : List Nat :=
  (List.range 48).foldl (fun acc _ => scheduleStep acc) ws

/-- One round of the SHA-256 compression function. -/
def roundStep (s : Sha256State) (kw : Nat × Nat) : Sha256State :=
  let t1 := w32 (s.h + bsig1 s.e + chFn s.e s.f s.g + kw.1 + kw.2)
  let t2 := w32 (bsig0 s.a + majFn s.a s.b s.c)
  ⟨w32 (t1 + t2), s.a, s.b, s.c, w32 (s.d + t1), s.e, s.f, s.g⟩

/-- Compress one 16-word block into the running state. -/
def compressBlock (s : Sha256State) (block : List Nat) : Sha256State :=
  let t := (K256.zip (schedule64 block)).foldl roundStep s
  ⟨w32 (s.a + t.a), w32 (s.b + t.b), w32 (s.c + t.c), w32 (s.d + t.d),
   w32 (s.e + t.e), w32 (s.f + t.f), w32 (s.g + t.g), w32 (s.h + t.h)⟩

/-- Big-endian 8-byte encoding of a (64-bit) length value. -/
def lenBytes (n : Nat) : List Nat :=
  [n / 72057594037927936 % 256, n / 281474976710656 % 256, n / 1099511627776 % 256,
   n / 4294967296 % 256, n / 16777216 % 256, n / 65536 % 256, n / 256 % 256, n % 256]

/-- SHA-256 message padding: append 0x80, zeros, and the 64-bit bit length. -/
def shaPad (msg : List Nat) : List Nat :=
  msg ++ 128 :: (List.replicate ((119 - msg.length % 64) % 64) 0 ++ lenBytes (8 * msg.length))

/-- Pack bytes into big-endian 32-bit words, four bytes at a time. -/
def toWords : List Nat → List Nat
  | b0 :: b1 :: b2 :: b3 :: rest => (((b0 * 256 + b1) * 256 + b2) * 256 + b3) :: toWords rest
  | _ => []

/-- Consume the word stream 16 words (one block) at a time, compressing
each block into the running state.  On padded input the word count is a
multiple of 16, so the final catch-all arm only ever sees the empty list. -/
def processWords (s : Sha256State) : List Nat → Sha256State
  | w0 :: w1 :: w2 :: w3 :: w4 :: w5 :: w6 :: w7 ::
    w8 :: w9 :: w10 :: w11 :: w12 :: w13 :: w14 :: w15 :: rest =>
    processWords (compressBlock s [w0, w1, w2, w3, w4, w5, w6, w7,
                                   w8, w9, w10, w11, w12, w13, w14, w15]) rest
  | _ => s

/-- Big-endian byte decomposition of a 32-bit word. -/
def wordBytes (w : Nat) : List Nat :=
  [w / 16777216 % 256, w / 65536 % 256, w / 256 % 256, w % 256]

/-- The 32-byte digest of a final SHA-256 state. -/
def digestBytes (s : Sha256State) : List Nat :=
  wordBytes s.a ++ wordBytes s.b ++ wordBytes s.c ++ wordBytes s.d ++
  wordBytes s.e ++ wordBytes s.f ++ wordBytes s.g ++ wordBytes s.h

/-- SHA-256 of a byte sequence. -/
def sha256 (msg : List Nat) : List Nat :=
  digestBytes (processWords initSha (toWords (shaPad msg)))

-- ---------------------------------------------------------------------------
-- Hex rendering (model of `hex::encode`) and UTF-8 encoding of text
-- ---------------------------------------------------------------------------

/-- Lowercase hexadecimal digit character for a value below 16. -/
def hexDigitChar (n : Nat) : Char :=
  if n < 10 then Char.ofNat (48 + n) else Char.ofNat (87 + n)

/-- Lowercase-hex rendering of a byte list, two characters per byte. -/
def hexEncodeList : List Nat → List Char
  | [] => []
  | b :: bs => hexDigitChar (b / 16) :: hexDigitChar (b % 16) :: hexEncodeList bs

/-- UTF-8 bytes of a single character. -/
def utf8Char (c : Char) : List Nat :=
  let n := c.toNat
  if n < 128 then [n]
  else if n < 2048 then [192 + n / 64, 128 + n % 64]
  else if n < 65536 then [224 + n / 4096, 128 + n / 64 % 64, 128 + n % 64]
  else [240 + n / 262144, 128 + n / 4096 % 64, 128 + n / 64 % 64, 128 + n % 64]

/-- UTF-8 bytes of a character sequence. -/
def utf8Encode : List Char → List Nat
  | [] => []
  | c :: cs => utf8Char c ++ utf8Encode cs

-- ---------------------------------------------------------------------------
-- Data model (`Transaction`, `BlockHeader`, `Block` from `main.rs`)
-- ---------------------------------------------------------------------------

/-- A transaction: sender, recipient, amount (`u64`). -/
structure Transaction where
  «from» : String
  «to» : String
  amount : Nat
deriving DecidableEq, Repr

/-- A block header; `timestamp` is `i64`, `nonce` is `u64`, `difficulty` is `u32`. -/
structure BlockHeader where
  parent_hash : String
  merkle_root : String
  timestamp : Int
  nonce : Nat
  difficulty : Nat
  miner : String
deriving DecidableEq, Repr

/-- A block: header, ordered transactions, cached hex hash of the header. -/
structure Block where
  header : BlockHeader
  txs : List Transaction
  hash : String
deriving DecidableEq, Repr

-- ---------------------------------------------------------------------------
-- serde_json serialization (derived impls, declared field order)
-- ---------------------------------------------------------------------------

/-- serde_json's escaping of one character inside a JSON string: quote and
backslash escaped, the five short control escapes, other control characters
as a lowercase hex escape, everything else verbatim. -/
def escapeChar (c : Char) : List Char :=
  if c = '"' then ['\\', '"']
  else if c = '\\' then ['\\', '\\']
  else if c = Char.ofNat 8 then ['\\', 'b']
  else if c = Char.ofNat 9 then ['\\', 't']
  else if c = Char.ofNat 10 then ['\\', 'n']
  else if c = Char.ofNat 12 then ['\\', 'f']
  else if c = Char.ofNat 13 then ['\\', 'r']
  else if c.toNat < 32 then
    ['\\', 'u', '0', '0', hexDigitChar (c.toNat / 16), hexDigitChar (c.toNat % 16)]
  else [c]

/-- serde_json's escaping of a character sequence. -/
def jsonEscape : List Char → List Char
  | [] => []
  | c :: cs => escapeChar c ++ jsonEscape cs

/-- Decimal digit recursion with explicit fuel (the value shrinks by a
factor of ten per step, so `n + 1` units of fuel always suffice). -/
def natCharsAux : Nat → Nat → List Char
  | 0, _ => []
  | fuel + 1, n =>
    if n < 10 then [hexDigitChar n]
    else natCharsAux fuel (n / 10) ++ [hexDigitChar (n % 10)]

/-- Decimal digit characters of a natural number. -/
def natChars (n : Nat) : List Char := natCharsAux (n + 1) n

theorem natCharsAux_irrel (n : Nat) :
    ∀ fuel fuel', n < fuel → n < fuel' → natCharsAux fuel n = natCharsAux fuel' n := by
  induction n using Nat.strong_induction_on with
  | _ n ih =>
    intro fuel fuel' h1 h2
    cases fuel with
    | zero => omega
    | succ f =>
      cases fuel' with
      | zero => omega
      | succ f' =>
        simp only [natCharsAux]
        by_cases h : n < 10
        · simp [h]
        · simp only [h, ite_false]
          rw [ih (n / 10) (Nat.div_lt_self (by omega) (by omega)) f f' (by omega) (by omega)]

theorem natChars_eq (n : Nat) :
    natChars n = if n < 10 then [hexDigitChar n]
      else natChars (n / 10) ++ [hexDigitChar (n % 10)] := by
  show natCharsAux (n + 1) n = _
  rw [natCharsAux]
  by_cases h : n < 10
  · simp [h]
  · simp only [h, ite_false]
    rw [natCharsAux_irrel (n / 10) n (n / 10 + 1) (by omega) (by omega)]
    rfl

/-- Decimal digit characters of an integer (minus sign when negative). -/
def intChars (i : Int) : List Char :=
  if i < 0 then '-' :: natChars i.natAbs else natChars i.toNat

-- Literal fragments of the JSON grammar ('\x7b' is an opening brace,
-- '\x7d' a closing brace), grouped so that each string field's opening
-- quote ends the preceding fragment and its closing quote starts the next.

/-- JSON fragment: opening brace, key "from", colon, opening quote. -/
def litFromL : List Char := ['\x7b', '"', 'f', 'r', 'o', 'm', '"', ':', '"']

/-- JSON fragment: comma, key "to", colon, opening quote. -/
def litToL : List Char := [',', '"', 't', 'o', '"', ':', '"']

/-- JSON fragment: comma, key "amount", colon. -/
def litAmountL : List Char := [',', '"', 'a', 'm', 'o', 'u', 'n', 't', '"', ':']

/-- JSON fragment: closing brace. -/
def rbraceL : List Char := ['\x7d']

/-- JSON fragment: opening brace, key "parent_hash", colon, opening quote. -/
def litParentL : List Char :=
  ['\x7b', '"', 'p', 'a', 'r', 'e', 'n', 't', '_', 'h', 'a', 's', 'h', '"', ':', '"']

/-- JSON fragment: comma, key "merkle_root", colon, opening quote. -/
def litMerkleL : List Char :=
  [',', '"', 'm', 'e', 'r', 'k', 'l', 'e', '_', 'r', 'o', 'o', 't', '"', ':', '"']

/-- JSON fragment: comma, key "timestamp", colon. -/
def litTimestampL : List Char :=
  [',', '"', 't', 'i', 'm', 'e', 's', 't', 'a', 'm', 'p', '"', ':']

/-- JSON fragment: comma, key "nonce", colon. -/
def litNonceL : List Char := [',', '"', 'n', 'o', 'n', 'c', 'e', '"', ':']

/-- JSON fragment: comma, key "difficulty", colon. -/
def litDifficultyL : List Char :=
  [',', '"', 'd', 'i', 'f', 'f', 'i', 'c', 'u', 'l', 't', 'y', '"', ':']

/-- JSON fragment: comma, key "miner", colon, opening quote. -/
def litMinerL : List Char := [',', '"', 'm', 'i', 'n', 'e', 'r', '"', ':', '"']

/-- JSON fragment: opening brace, key "header", colon. -/
def litHeaderL : List Char := ['\x7b', '"', 'h', 'e', 'a', 'd', 'e', 'r', '"', ':']

/-- JSON fragment: comma, key "txs", colon. -/
def litTxsL : List Char := [',', '"', 't', 'x', 's', '"', ':']

/-- JSON fragment: comma, key "hash", colon, opening quote. -/
def litHashL : List Char := [',', '"', 'h', 'a', 's', 'h', '"', ':', '"']

/-- serde_json text of a Transaction (field order from, to, amount). -/
def serializeTx (t : Transaction) : List Char :=
  litFromL ++ (jsonEscape t.«from».data ++ ('"' :: (litToL ++ (jsonEscape t.«to».data ++
    ('"' :: (litAmountL ++ (natChars t.amount ++ rbraceL)))))))

/-- serde_json text of a BlockHeader (declared field order). -/
def serializeHeader (h : BlockHeader) : List Char :=
  litParentL ++ (jsonEscape h.parent_hash.data ++ ('"' :: (litMerkleL ++
    (jsonEscape h.merkle_root.data ++ ('"' :: (litTimestampL ++ (intChars h.timestamp ++
      (litNonceL ++ (natChars h.nonce ++ (litDifficultyL ++ (natChars h.difficulty ++
        (litMinerL ++ (jsonEscape h.miner.data ++ ('"' :: rbraceL))))))))))))))

/-- serde_json text of the transaction array after the first element. -/
def encTxsTail : List Transaction → List Char
  | [] => [']']
  | t :: ts => ',' :: (serializeTx t ++ encTxsTail ts)

/-- serde_json text of a transaction array. -/
def encTxs : List Transaction → List Char
  | [] => ['[', ']']
  | t :: ts => '[' :: (serializeTx t ++ encTxsTail ts)

/-- serde_json text of a Block (declared field order). -/
def serializeBlock (b : Block) : List Char :=
  litHeaderL ++ (serializeHeader b.header ++ (litTxsL ++ (encTxs b.txs ++
    (litHashL ++ (jsonEscape b.hash.data ++ ('"' :: rbraceL))))))

/-- serde_json::to_vec of a Block, as the byte string it denotes
(`ChainDB::save_block` stores these bytes). -/
def encodeBlock (b : Block) : String := String.mk (serializeBlock b)

-- ---------------------------------------------------------------------------
-- Hashing pipeline of main.rs
-- ---------------------------------------------------------------------------

/-- `hash_block_header`: SHA-256 of the serde_json text of the header,
rendered as lowercase hex (`hex::encode`). -/
def hash_block_header (h : BlockHeader) : String :=
  String.mk (hexEncodeList (sha256 (utf8Encode (serializeHeader h))))

/-- Leaf digest of one transaction inside `merkle_root`: SHA-256 of its
serde_json text, rendered as lowercase hex. -/
def txLeaf (t : Transaction) : String :=
  String.mk (hexEncodeList (sha256 (utf8Encode (serializeTx t))))

/-- Inner-node digest inside `merkle_root`: SHA-256 over the concatenated
UTF-8 bytes of the two child hex strings, rendered as lowercase hex. -/
def hashPair (x y : String) : String :=
  String.mk (hexEncodeList (sha256 (utf8Encode x.data ++ utf8Encode y.data)))

/-- One pass of `merkle_root`'s while-loop body: `chunks(2)` over the level,
hashing full pairs, carrying an odd trailing element unchanged. -/
def merkleLevel : List String → List String
  | [] => []
  | [x] => [x]
  | x :: y :: rest => hashPair x y :: merkleLevel rest

theorem merkleLevel_length_le : ∀ l : List String, (merkleLevel l).length ≤ l.length
  | [] => by simp [merkleLevel]
  | [_] => by simp [merkleLevel]
  | _ :: _ :: rest => by
    have ih := merkleLevel_length_le rest
    simp [merkleLevel]; omega

/-- `merkle_root`'s while-loop: fold levels until at most one digest remains. -/
def merkleFold : List String → List String
  | [] => []
  | [x] => [x]
  | x :: y :: rest => merkleFold (merkleLevel (x :: y :: rest))
termination_by l => l.length
decreasing_by
  have := merkleLevel_length_le rest
  simp [merkleLevel]; omega

/-- `merkle_root`: empty list gives the empty string, otherwise fold the
per-transaction leaf digests pairwise down to a single root. -/
def merkle_root (txs : List Transaction) : String :=
  if txs.isEmpty then String.mk []
  else (merkleFold (txs.map txLeaf)).headD (String.mk [])

/-- `meets_difficulty`: the hex hash starts with `difficulty / 4` zero
characters (`"0".repeat(needed)` is a prefix). -/
def meets_difficulty (hex_hash : String) (difficulty : Nat) : Bool :=
  List.isPrefixOf (List.replicate (difficulty / 4) '0') hex_hash.data

/-- `mine_block`: repeatedly draw a nonce from the stream, recompute the
merkle root, hash the header, and return the block on the first success.
The unbounded `loop` of the source is given explicit fuel. -/
def mine_block : Nat → (Nat → Nat) → BlockHeader → List Transaction → Option Block
  | 0, _, _, _ => none
  | fuel + 1, stream, header_template, txs =>
    let header := { header_template with nonce := stream fuel }
    let header_for_hash := { header with merkle_root := merkle_root txs }
    let h := hash_block_header header_for_hash
    if meets_difficulty h header_for_hash.difficulty then
      some { header := header_for_hash, txs := txs, hash := h }
    else
      mine_block fuel stream header_template txs

/-- The string "genesis" (miner label of the genesis block). -/
def genesisMiner : String := String.mk ['g', 'e', 'n', 'e', 's', 'i', 's']

/-- `make_genesis`: the unmined chain root; `now` stands for the sampled
`Utc::now().timestamp()`. -/
def make_genesis (now : Int) (difficulty : Nat) : Block :=
  let header : BlockHeader :=
    { parent_hash := String.mk ['0'], merkle_root := String.mk [], timestamp := now,
      nonce := 0, difficulty := difficulty, miner := genesisMiner }
  let txs : List Transaction := []
  let header_for_hash := { header with merkle_root := merkle_root txs }
  { header := header_for_hash, txs := txs, hash := hash_block_header header_for_hash }

-- ---------------------------------------------------------------------------
-- ChainDB over sled, modelled as a key-value map
-- ---------------------------------------------------------------------------

/-- The sled store: a map from byte-string keys to byte-string values.  The
program only ever stores valid UTF-8 (hex hash strings and JSON bytes), so
both sides are modelled as `String`. -/
def Store : Type := String → Option String

/-- The fixed sentinel key "latest". -/
def latestKey : String := String.mk ['l', 'a', 't', 'e', 's', 't']

/-- `ChainDB::save_block`: write the serialized block under its hash, then
overwrite the "latest" pointer with the hash (later write wins on key
collision, as in sled). -/
def save_block (block : Block) (db : Store) : Store :=
  fun k =>
    if k = latestKey then some block.hash
    else if k = block.hash then some (encodeBlock block)
    else db k

-- ---------------------------------------------------------------------------
-- serde_json deserialization of a Block (parser for the emitted grammar)
-- ---------------------------------------------------------------------------

/-- Consume an exact literal fragment from the input. -/
def pLit : List Char → List Char → Option (List Char)
  | [], s => some s
  | _ :: _, [] => none
  | c :: cs, d :: ds => if c = d then pLit cs ds else none

/-- Value of one hexadecimal digit character. -/
def hexVal (c : Char) : Option Nat :=
  if c.isDigit then some (c.toNat - 48)
  else if decide ('a' ≤ c) && decide (c ≤ 'f') then some (c.toNat - 87)
  else if decide ('A' ≤ c) && decide (c ≤ 'F') then some (c.toNat - 55)
  else none

/-- JSON string body parser (after the opening quote): accumulate characters
until the closing quote, decoding serde's escapes; raw control characters
and unknown escapes are rejected. -/
def pStrGo (acc : List Char) : List Char → Option (List Char × List Char)
  | [] => none
  | c :: rest =>
    if c = '"' then some (acc.reverse, rest)
    else if c = '\\' then
      match rest with
      | [] => none
      | e :: rest2 =>
        if e = '"' then pStrGo ('"' :: acc) rest2
        else if e = '\\' then pStrGo ('\\' :: acc) rest2
        else if e = '/' then pStrGo ('/' :: acc) rest2
        else if e = 'b' then pStrGo (Char.ofNat 8 :: acc) rest2
        else if e = 't' then pStrGo (Char.ofNat 9 :: acc) rest2
        else if e = 'n' then pStrGo (Char.ofNat 10 :: acc) rest2
        else if e = 'f' then pStrGo (Char.ofNat 12 :: acc) rest2
        else if e = 'r' then pStrGo (Char.ofNat 13 :: acc) rest2
        else if e = 'u' then
          match rest2 with
          | h1 :: h2 :: h3 :: h4 :: rest3 =>
            match hexVal h1, hexVal h2, hexVal h3, hexVal h4 with
            | some v1, some v2, some v3, some v4 =>
              pStrGo (Char.ofNat (((v1 * 16 + v2) * 16 + v3) * 16 + v4) :: acc) rest3
            | _, _, _, _ => none
          | _ => none
        else none
    else if c.toNat < 32 then none
    else pStrGo (c :: acc) rest

/-- Greedily consume decimal digits, extending an accumulated value. -/
def pNatGo (acc : Nat) : List Char → Nat × List Char
  | [] => (acc, [])
  | c :: rest =>
    if c.isDigit then pNatGo (acc * 10 + (c.toNat - 48)) rest else (acc, c :: rest)

/-- Parse a decimal natural number (at least one digit). -/
def pNat : List Char → Option (Nat × List Char)
  | [] => none
  | c :: rest =>
    if c.isDigit then some (pNatGo (c.toNat - 48) rest) else none

/-- Parse a decimal integer with optional leading minus sign. -/
def pInt : List Char → Option (Int × List Char)
  | [] => none
  | c :: rest =>
    if c = '-' then
      match pNat rest with
      | some (n, r) => some (-(n : Int), r)
      | none => none
    else
      match pNat (c :: rest) with
      | some (n, r) => some ((n : Int), r)
      | none => none

/-- Parse one Transaction object. -/
def pTx (s : List Char) : Option (Transaction × List Char) :=
  match pLit litFromL s with
  | none => none
  | some s1 =>
    match pStrGo [] s1 with
    | none => none
    | some (f, s2) =>
      match pLit litToL s2 with
      | none => none
      | some s3 =>
        match pStrGo [] s3 with
        | none => none
        | some (t, s4) =>
          match pLit litAmountL s4 with
          | none => none
          | some s5 =>
            match pNat s5 with
            | none => none
            | some (a, s6) =>
              match pLit rbraceL s6 with
              | none => none
              | some s7 => some (⟨String.mk f, String.mk t, a⟩, s7)

/-- Parse the remainder of a transaction array after its first element;
the fuel bounds the number of elements (one comma consumed per step). -/
def pTxsTail (fuel : Nat) (s : List Char) : Option (List Transaction × List Char) :=
  match s with
  | ']' :: rest => some ([], rest)
  | ',' :: rest =>
    match fuel with
    | 0 => none
    | fuel' + 1 =>
      match pTx rest with
      | none => none
      | some (t, r) =>
        match pTxsTail fuel' r with
        | none => none
        | some (ts, r2) => some (t :: ts, r2)
  | _ => none

/-- Parse a transaction array. -/
def pTxList (s : List Char) : Option (List Transaction × List Char) :=
  match s with
  | '[' :: ']' :: rest => some ([], rest)
  | '[' :: rest =>
    match pTx rest with
    | none => none
    | some (t, r) =>
      match pTxsTail r.length r with
      | none => none
      | some (ts, r2) => some (t :: ts, r2)
  | _ => none

/-- Parse one BlockHeader object. -/
def pHeader (s : List Char) : Option (BlockHeader × List Char) :=
  match pLit litParentL s with
  | none => none
  | some s1 =>
    match pStrGo [] s1 with
    | none => none
    | some (ph, s2) =>
      match pLit litMerkleL s2 with
      | none => none
      | some s3 =>
        match pStrGo [] s3 with
        | none => none
        | some (mr, s4) =>
          match pLit litTimestampL s4 with
          | none => none
          | some s5 =>
            match pInt s5 with
            | none => none
            | some (ts, s6) =>
              match pLit litNonceL s6 with
              | none => none
              | some s7 =>
                match pNat s7 with
                | none => none
                | some (nn, s8) =>
                  match pLit litDifficultyL s8 with
                  | none => none
                  | some s9 =>
                    match pNat s9 with
                    | none => none
                    | some (df, s10) =>
                      match pLit litMinerL s10 with
                      | none => none
                      | some s11 =>
                        match pStrGo [] s11 with
                        | none => none
                        | some (mi, s12) =>
                          match pLit rbraceL s12 with
                          | none => none
                          | some s13 =>
                            some (⟨String.mk ph, String.mk mr, ts, nn, df, String.mk mi⟩, s13)

/-- Parse one Block object. -/
def pBlock (s : List Char) : Option (Block × List Char) :=
  match pLit litHeaderL s with
  | none => none
  | some s1 =>
    match pHeader s1 with
    | none => none
    | some (hd, s2) =>
      match pLit litTxsL s2 with
      | none => none
      | some s3 =>
        match pTxList s3 with
        | none => none
        | some (txs, s4) =>
          match pLit litHashL s4 with
          | none => none
          | some s5 =>
            match pStrGo [] s5 with
            | none => none
            | some (hh, s6) =>
              match pLit rbraceL s6 with
              | none => none
              | some s7 => some (⟨hd, txs, String.mk hh⟩, s7)

/-- serde_json::from_slice::<Block>: succeeds only when the whole input is
exactly one Block in the emitted grammar. -/
def decodeBlock (s : String) : Option Block :=
  match pBlock s.data with
  | some (b, []) => some b
  | _ => none

/-- `ChainDB::get_latest`: read the "latest" pointer; absent pointer or
absent referenced block fall through to `Ok(None)`; an undecodable block
value propagates a deserialization error. -/
def get_latest (db : Store) : Except Unit (Option Block) :=
  match db latestKey with
  | none => Except.ok none
  | some hash =>
    match db hash with
    | none => Except.ok none
    | some bv =>
      match decodeBlock bv with
      | none => Except.error ()
      | some block => Except.ok (some block)

/-- Reading one block by its hash key (the `db.get(hash)` + decode step of
`get_latest`, used to state that an old block stays retrievable). -/
def retrieveBlock (db : Store) (k : String) : Option Block :=
  match db k with
  | none => none
  | some bv => decodeBlock bv

-- ---------------------------------------------------------------------------
-- Helper lemmas: digest shape
-- ---------------------------------------------------------------------------

theorem digestBytes_length (s : Sha256State) : (digestBytes s).length = 32 := rfl

theorem sha256_length (msg : List Nat) : (sha256 msg).length = 32 := rfl

theorem wordBytes_lt (w : Nat) : ∀ b ∈ wordBytes w, b < 256 := by
  intro b hb
  simp [wordBytes] at hb
  rcases hb with rfl | rfl | rfl | rfl <;> exact Nat.mod_lt _ (by omega)

theorem sha256_lt (msg : List Nat) : ∀ b ∈ sha256 msg, b < 256 := by
  intro b hb
  simp only [sha256, digestBytes, List.mem_append] at hb
  rcases hb with ((((((hb | hb) | hb) | hb) | hb) | hb) | hb) | hb <;>
    exact wordBytes_lt _ b hb

theorem hexEncodeList_length (bs : List Nat) :
    (hexEncodeList bs).length = 2 * bs.length := by
  induction bs with
  | nil => simp [hexEncodeList]
  | cons b bs ih => simp [hexEncodeList, ih]; omega

/-- A character is a lowercase hexadecimal digit. -/
def isLowerHex (c : Char) : Bool :=
  c.isDigit || (decide ('a' ≤ c) && decide (c ≤ 'f'))

theorem hexDigitChar_lower (n : Nat) (h : n < 16) : isLowerHex (hexDigitChar n) = true := by
  interval_cases n <;> decide

theorem hexEncodeList_lower (bs : List Nat) (h : ∀ b ∈ bs, b < 256) :
    (hexEncodeList bs).all isLowerHex = true := by
  induction bs with
  | nil => simp [hexEncodeList]
  | cons b bs ih =>
    have hb : b < 256 := h b (by simp)
    simp only [hexEncodeList, List.all_cons, Bool.and_eq_true]
    refine ⟨hexDigitChar_lower _ (by omega), hexDigitChar_lower _ (by omega),
           ih (fun x hx => h x (by simp [hx]))⟩

theorem hash_block_header_length (h : BlockHeader) : (hash_block_header h).length = 64 := by
  show (hexEncodeList (sha256 (utf8Encode (serializeHeader h)))).length = 64
  rw [hexEncodeList_length, sha256_length]

theorem hash_block_header_lower (h : BlockHeader) :
    (hash_block_header h).data.all isLowerHex = true := by
  show (hexEncodeList (sha256 (utf8Encode (serializeHeader h)))).all isLowerHex = true
  exact hexEncodeList_lower _ (sha256_lt _)

-- ---------------------------------------------------------------------------
-- Helper lemmas: difficulty prefix predicate
-- ---------------------------------------------------------------------------

theorem replicate_isPrefixOf_iff (n : Nat) (l : List Char) :
    (List.replicate n '0').isPrefixOf l = true ↔ l.take n = List.replicate n '0' := by
  induction n generalizing l with
  | zero => simp [List.isPrefixOf]
  | succ n ih =>
    cases l with
    | nil => simp [List.isPrefixOf, List.replicate]
    | cons a l =>
      simp only [List.replicate, List.isPrefixOf, List.take, Bool.and_eq_true, beq_iff_eq, ih]
      constructor
      · rintro ⟨rfl, h⟩; simp [h]
      · intro h
        have h1 : a = '0' := by
          have := congrArg (fun x => x.headD 'x') h
          simpa using this
        have h2 : l.take n = List.replicate n '0' := by
          have := congrArg List.tail h
          simpa using this
        exact ⟨h1.symm, h2⟩

theorem meets_difficulty_iff (hex : String) (d : Nat) :
    meets_difficulty hex d = true ↔
      hex.data.take (d / 4) = List.replicate (d / 4) '0' :=
  replicate_isPrefixOf_iff _ _

theorem meets_difficulty_false_of_short (hex : String) (d : Nat)
    (hlen : hex.length < d / 4) : meets_difficulty hex d = false := by
  rw [Bool.eq_false_iff]
  intro h
  have h2 := (meets_difficulty_iff hex d).1 h
  have h3 := congrArg List.length h2
  simp only [List.length_take, List.length_replicate] at h3
  have : hex.data.length = hex.length := rfl
  omega

-- ---------------------------------------------------------------------------
-- Helper lemmas: parser/serializer roundtrip
-- ---------------------------------------------------------------------------

theorem string_mk_data (s : String) : String.mk s.data = s := rfl

theorem pLit_self (l : List Char) : ∀ s, pLit l (l ++ s) = some s := by
  induction l with
  | nil => intro s; simp [pLit]
  | cons c cs ih => intro s; simp [pLit, ih]

theorem hexVal_hexDigitChar (n : Nat) (h : n < 16) : hexVal (hexDigitChar n) = some n := by
  interval_cases n <;> decide

theorem hexVal_zero : hexVal '0' = some 0 := by decide

theorem pStrGo_escape (l : List Char) :
    ∀ acc rest, pStrGo acc (jsonEscape l ++ '"' :: rest) = some (acc.reverse ++ l, rest) := by
  induction l with
  | nil =>
    intro acc rest
    simp only [jsonEscape, List.nil_append]
    rw [pStrGo.eq_def]; simp
  | cons c cs ih =>
    intro acc rest
    simp only [jsonEscape, List.append_assoc]
    by_cases h1 : c = '"'
    · subst h1; simp only [escapeChar, if_pos rfl, List.cons_append]
      rw [pStrGo.eq_def]; simp [ih]
    by_cases h2 : c = '\\'
    · subst h2; simp only [escapeChar, reduceIte, List.cons_append]
      rw [pStrGo.eq_def]; simp [ih]
    by_cases h3 : c = Char.ofNat 8
    · subst h3; simp only [escapeChar, reduceIte, List.cons_append]
      rw [pStrGo.eq_def]; simp [ih]
    by_cases h4 : c = Char.ofNat 9
    · subst h4; simp only [escapeChar, reduceIte, List.cons_append]
      rw [pStrGo.eq_def]; simp [ih]
    by_cases h5 : c = Char.ofNat 10
    · subst h5; simp only [escapeChar, reduceIte, List.cons_append]
      rw [pStrGo.eq_def]; simp [ih]
    by_cases h6 : c = Char.ofNat 12
    · subst h6; simp only [escapeChar, reduceIte, List.cons_append]
      rw [pStrGo.eq_def]; simp [ih]
    by_cases h7 : c = Char.ofNat 13
    · subst h7; simp only [escapeChar, reduceIte, List.cons_append]
      rw [pStrGo.eq_def]; simp [ih]
    by_cases h8 : c.toNat < 32
    · have hd1 : hexVal (hexDigitChar (c.toNat / 16)) = some (c.toNat / 16) :=
        hexVal_hexDigitChar _ (by omega)
      have hd2 : hexVal (hexDigitChar (c.toNat % 16)) = some (c.toNat % 16) :=
        hexVal_hexDigitChar _ (by omega)
      have hc : Char.ofNat (c.toNat / 16 * 16 + c.toNat % 16) = c := by
        have he : c.toNat / 16 * 16 + c.toNat % 16 = c.toNat := by omega
        rw [he, Char.ofNat_toNat]
      simp only [escapeChar, h1, h2, h3, h4, h5, h6, h7, h8, if_neg, if_pos,
        ite_false, ite_true, List.cons_append]
      rw [pStrGo.eq_def]; simp [hexVal_zero, hd1, hd2, hc, ih]
    · simp only [escapeChar, h1, h2, h3, h4, h5, h6, h7, h8, if_neg, if_pos,
        ite_false, ite_true, List.cons_append]
      rw [pStrGo.eq_def]; simp [h1, h2, h8, ih]

/-- The head of the input is not a decimal digit (or the input is empty). -/
def headNoDigit : List Char → Bool
  | [] => true
  | c :: _ => !c.isDigit

theorem hexDigitChar_isDigit (n : Nat) (h : n < 10) : (hexDigitChar n).isDigit = true := by
  interval_cases n <;> decide

theorem hexDigitChar_toNat (n : Nat) (h : n < 10) : (hexDigitChar n).toNat = 48 + n := by
  interval_cases n <;> decide

theorem natChars_ne_nil (n : Nat) : natChars n ≠ [] := by
  rw [natChars_eq]
  split <;> simp

theorem natChars_digits (n : Nat) : ∀ c ∈ natChars n, c.isDigit = true := by
  induction n using Nat.strong_induction_on with
  | _ n ih =>
    intro c hc
    rw [natChars_eq] at hc
    split at hc
    · simp at hc
      subst hc
      exact hexDigitChar_isDigit n (by omega)
    · rename_i hge
      rcases List.mem_append.1 hc with h | h
      · exact ih (n / 10) (Nat.div_lt_self (by omega) (by omega)) c h
      · simp at h
        subst h
        exact hexDigitChar_isDigit _ (Nat.mod_lt _ (by omega))

theorem natChars_foldl (n : Nat) :
    ∀ acc, (natChars n).foldl (fun a c => a * 10 + (c.toNat - 48)) acc =
      acc * 10 ^ (natChars n).length + n := by
  induction n using Nat.strong_induction_on with
  | _ n ih =>
    intro acc
    rw [natChars_eq]
    split
    · rename_i hlt
      simp [List.foldl, hexDigitChar_toNat n hlt]
    · rename_i hge
      rw [List.foldl_append, List.length_append, ih (n / 10) (Nat.div_lt_self (by omega) (by omega))]
      simp only [List.foldl, List.length_cons, List.length_nil]
      rw [hexDigitChar_toNat _ (Nat.mod_lt _ (by omega))]
      have h1 : 48 + n % 10 - 48 = n % 10 := by omega
      rw [h1]
      have h2 : (acc * 10 ^ (natChars (n / 10)).length + n / 10) * 10 + n % 10 =
          acc * (10 ^ (natChars (n / 10)).length * 10) + (10 * (n / 10) + n % 10) := by ring
      rw [h2, Nat.div_add_mod, pow_succ]

theorem pNatGo_digits (ds : List Char) :
    ∀ acc rest, (∀ c ∈ ds, c.isDigit = true) → headNoDigit rest = true →
      pNatGo acc (ds ++ rest) =
        (ds.foldl (fun a c => a * 10 + (c.toNat - 48)) acc, rest) := by
  induction ds with
  | nil =>
    intro acc rest _ hrest
    cases rest with
    | nil => simp [pNatGo]
    | cons c cs =>
      simp [headNoDigit] at hrest
      simp [pNatGo, hrest]
  | cons d ds ih =>
    intro acc rest hds hrest
    have hd : d.isDigit = true := hds d (by simp)
    simp only [List.cons_append, pNatGo, hd, if_pos, List.foldl]
    exact ih _ rest (fun c hc => hds c (by simp [hc])) hrest

theorem pNat_natChars (n : Nat) (rest : List Char) (hrest : headNoDigit rest = true) :
    pNat (natChars n ++ rest) = some (n, rest) := by
  obtain ⟨c, cs, hc⟩ : ∃ c cs, natChars n = c :: cs := by
    cases hnc : natChars n with
    | nil => exact absurd hnc (natChars_ne_nil n)
    | cons c cs => exact ⟨c, cs, rfl⟩
  have hcd : c.isDigit = true := natChars_digits n c (by rw [hc]; simp)
  have hall : ∀ x ∈ cs, x.isDigit = true := fun x hx => natChars_digits n x (by rw [hc]; simp [hx])
  rw [hc]
  simp only [List.cons_append, pNat, hcd, if_pos]
  rw [pNatGo_digits cs _ rest hall hrest]
  have hfold := natChars_foldl n 0
  rw [hc] at hfold
  simp only [List.foldl] at hfold
  have hz : (0 : Nat) * 10 + (c.toNat - 48) = c.toNat - 48 := by omega
  rw [hz] at hfold
  rw [hfold]
  simp

theorem digit_ne_minus (c : Char) (h : c.isDigit = true) : ¬c = '-' := by
  intro he
  subst he
  simp [Char.isDigit] at h

theorem pInt_intChars (i : Int) (rest : List Char) (hrest : headNoDigit rest = true) :
    pInt (intChars i ++ rest) = some (i, rest) := by
  by_cases hi : i < 0
  · simp only [intChars, hi, if_pos, List.cons_append]
    simp only [pInt, reduceIte]
    rw [pNat_natChars _ rest hrest]
    show some (-((i.natAbs : Nat) : Int), rest) = some (i, rest)
    have : -((i.natAbs : Nat) : Int) = i := by omega
    rw [this]
  · simp only [intChars, hi, ite_false]
    obtain ⟨c, cs, hc⟩ : ∃ c cs, natChars i.toNat = c :: cs := by
      cases hnc : natChars i.toNat with
      | nil => exact absurd hnc (natChars_ne_nil _)
      | cons c cs => exact ⟨c, cs, rfl⟩
    have hcd : c.isDigit = true := natChars_digits _ c (by rw [hc]; simp)
    have hnm : ¬c = '-' := digit_ne_minus c hcd
    have hp := pNat_natChars i.toNat rest hrest
    rw [hc] at hp ⊢
    simp only [List.cons_append] at hp ⊢
    simp only [pInt, hnm, ite_false, hp]
    have : ((i.toNat : Nat) : Int) = i := by omega
    rw [this]

theorem headNoDigit_comma (l : List Char) : headNoDigit (',' :: l) = true := rfl

theorem headNoDigit_brace (l : List Char) : headNoDigit ('\x7d' :: l) = true := rfl

theorem pTx_enc (t : Transaction) (rest : List Char) :
    pTx (serializeTx t ++ rest) = some (t, rest) := by
  simp only [serializeTx, litFromL, litToL, litAmountL, rbraceL, List.append_assoc,
    List.cons_append, List.nil_append]
  simp only [pTx, pLit, reduceIte, pStrGo_escape, List.reverse_nil, List.nil_append,
    pNat_natChars, headNoDigit_comma, headNoDigit_brace, string_mk_data]

theorem encTxsTail_length_ge (ts : List Transaction) : ts.length ≤ (encTxsTail ts).length := by
  induction ts with
  | nil => simp [encTxsTail]
  | cons t ts ih => simp [encTxsTail]; omega

theorem pTxsTail_enc (ts : List Transaction) :
    ∀ fuel rest, ts.length ≤ fuel →
      pTxsTail fuel (encTxsTail ts ++ rest) = some (ts, rest) := by
  induction ts with
  | nil => intro fuel rest _; simp [encTxsTail, pTxsTail]
  | cons t ts ih =>
    intro fuel rest hf
    cases fuel with
    | zero => simp at hf
    | succ fuel' =>
      have hih := ih fuel' rest (by simp at hf; omega)
      simp only [encTxsTail, List.cons_append, List.append_assoc]
      simp only [pTxsTail, pTx_enc, hih]

theorem pTxList_enc (ts : List Transaction) (rest : List Char) :
    pTxList (encTxs ts ++ rest) = some (ts, rest) := by
  cases ts with
  | nil => simp [encTxs, pTxList]
  | cons t ts =>
    simp only [encTxs, List.cons_append, List.append_assoc]
    obtain ⟨tl, htl⟩ : ∃ tl, serializeTx t ++ (encTxsTail ts ++ rest) = '\x7b' :: tl := ⟨_, rfl⟩
    have hptx : pTx ('\x7b' :: tl) = some (t, encTxsTail ts ++ rest) := by
      rw [← htl]
      exact pTx_enc t _
    have hlen : ts.length ≤ (encTxsTail ts ++ rest).length := by
      have := encTxsTail_length_ge ts
      simp [List.length_append]
      omega
    have htail := pTxsTail_enc ts (encTxsTail ts ++ rest).length rest hlen
    rw [htl]
    show (match pTx ('\x7b' :: tl) with
      | none => none
      | some (t, r) =>
        match pTxsTail r.length r with
        | none => none
        | some (ts, r2) => some (t :: ts, r2)) = some (t :: ts, rest)
    rw [hptx]
    show (match pTxsTail (encTxsTail ts ++ rest).length (encTxsTail ts ++ rest) with
      | none => none
      | some (ts, r2) => some (t :: ts, r2)) = some (t :: ts, rest)
    rw [htail]

theorem pHeader_enc (h : BlockHeader) (rest : List Char) :
    pHeader (serializeHeader h ++ rest) = some (h, rest) := by
  simp only [serializeHeader, litParentL, litMerkleL, litTimestampL, litNonceL,
    litDifficultyL, litMinerL, rbraceL, List.append_assoc, List.cons_append, List.nil_append]
  simp only [pHeader, pLit, reduceIte, pStrGo_escape, List.reverse_nil, List.nil_append,
    pNat_natChars, pInt_intChars, headNoDigit_comma, headNoDigit_brace, string_mk_data]

theorem pBlock_enc (b : Block) (rest : List Char) :
    pBlock (serializeBlock b ++ rest) = some (b, rest) := by
  simp only [serializeBlock, List.append_assoc, List.cons_append]
  simp only [pBlock, pLit_self, pHeader_enc, pTxList_enc, pStrGo_escape,
    List.reverse_nil, List.nil_append, string_mk_data]

theorem decode_encode (b : Block) : decodeBlock (encodeBlock b) = some b := by
  have h := pBlock_enc b []
  rw [List.append_nil] at h
  show (match pBlock (serializeBlock b) with
    | some (b, []) => some b
    | _ => none) = some b
  rw [h]

-- ---------------------------------------------------------------------------
-- Sanity: the SHA-256 model matches the FIPS 180-4 test vector for "abc"
-- ---------------------------------------------------------------------------

set_option maxRecDepth 10000 in
example : hexEncodeList (sha256 (utf8Encode ['a', 'b', 'c'])) =
    ['b','a','7','8','1','6','b','f','8','f','0','1','c','f','e','a',
     '4','1','4','1','4','0','d','e','5','d','a','e','2','2','2','3',
     'b','0','0','3','6','1','a','3','9','6','1','7','7','a','9','c',
     'b','4','1','0','f','f','6','1','f','2','0','0','1','5','a','d'] := by decide

-- ---------------------------------------------------------------------------
-- Concrete fixtures used by witnesses and counterexamples
-- ---------------------------------------------------------------------------

/-- The empty store. -/
def emptyStore : Store := fun _ => none

/-- A store whose "latest" pointer references a key that holds no block. -/
def danglingStore : Store :=
  fun k => if k = latestKey then some (String.mk ['h']) else none

/-- A concrete block with hash key "a" and one transaction. -/
def blockA : Block :=
  ⟨⟨String.mk ['p'], String.mk [], 1, 2, 3, String.mk ['m']⟩,
   [⟨String.mk ['x'], String.mk ['y'], 4⟩], String.mk ['a']⟩

/-- A store holding `blockA` under its hash, with "latest" pointing at it. -/
def storeA : Store :=
  fun k =>
    if k = latestKey then some (String.mk ['a'])
    else if k = String.mk ['a'] then some (encodeBlock blockA) else none

/-- A concrete block with hash key "b". -/
def blockB : Block :=
  ⟨⟨String.mk ['0'], String.mk [], -5, 6, 8, String.mk ['w']⟩, [], String.mk ['b']⟩

/-- A concrete child block of `blockB` with hash key "c". -/
def blockC : Block :=
  ⟨⟨String.mk ['b'], String.mk [], 0, 1, 0, String.mk ['v']⟩, [], String.mk ['c']⟩

/-- A block whose hash field is the literal "latest". -/
def blockLatest : Block :=
  ⟨⟨String.mk [], String.mk [], 0, 0, 0, String.mk []⟩, [], latestKey⟩

/-- A block whose hash field equals its own parent hash "a". -/
def blockD : Block :=
  ⟨⟨String.mk ['a'], String.mk [], 0, 0, 0, String.mk ['d']⟩, [], String.mk ['a']⟩

/-- A block distinct from `blockD` with the same hash "a", child of "a". -/
def blockE : Block :=
  ⟨⟨String.mk ['a'], String.mk [], 0, 0, 0, String.mk ['e']⟩, [], String.mk ['a']⟩

-- ---------------------------------------------------------------------------
-- Claim C1 (get_latest case analysis)
-- ---------------------------------------------------------------------------

/-- C1 counterexample: with the "latest" pointer present but the referenced
block missing from the store, `get_latest` returns `Ok(None)` — it does not
fail with an error as the claim states. -/
theorem c1_counterexample :
    danglingStore latestKey = some (String.mk ['h']) ∧
    danglingStore (String.mk ['h']) = none ∧
    get_latest danglingStore = Except.ok none ∧
    ¬get_latest danglingStore = Except.error () := by
  refine ⟨rfl, rfl, rfl, ?_⟩
  intro h
  rw [show get_latest danglingStore = Except.ok none from rfl] at h
  exact Except.noConfusion h

/-- C1 (amended): `get_latest` returns `Ok(None)` when the "latest" pointer
is absent, and likewise when the pointer is present but the referenced block
is missing (the inner lookup falls through); it fails with an error exactly
when the stored block bytes do not decode; otherwise it returns the decoded
block. -/
theorem c1_get_latest_cases (db : Store) :
    (db latestKey = none → get_latest db = Except.ok none) ∧
    (∀ h, db latestKey = some h → db h = none → get_latest db = Except.ok none) ∧
    (∀ h s, db latestKey = some h → db h = some s → decodeBlock s = none →
      get_latest db = Except.error ()) ∧
    (∀ h s b, db latestKey = some h → db h = some s → decodeBlock s = some b →
      get_latest db = Except.ok (some b)) := by
  refine ⟨?_, ?_, ?_, ?_⟩
  · intro h; simp [get_latest, h]
  · intro hh h1 h2; simp [get_latest, h1, h2]
  · intro hh s h1 h2 h3; simp [get_latest, h1, h2, h3]
  · intro hh s b h1 h2 h3; simp [get_latest, h1, h2, h3]

/-- C1 witness: on a store holding a decodable block under the pointed-to
key, `get_latest` returns that block. -/
theorem c1_get_latest_cases_witness : get_latest storeA = Except.ok (some blockA) :=
  (c1_get_latest_cases storeA).2.2.2 (String.mk ['a']) (encodeBlock blockA) blockA
    rfl rfl (decode_encode blockA)

-- ---------------------------------------------------------------------------
-- Claim C3 (difficulty predicate)
-- ---------------------------------------------------------------------------

/-- C3: `meets_difficulty h d` holds iff the first `d / 4` characters of `h`
are all '0'; for `d ≤ 3` it always holds; for `d = 4` it holds iff the first
character is '0'. -/
theorem c3_meets_difficulty_quantized (hex : String) (d : Nat) :
    (meets_difficulty hex d = true ↔ hex.data.take (d / 4) = List.replicate (d / 4) '0') ∧
    (d ≤ 3 → meets_difficulty hex d = true) ∧
    (meets_difficulty hex 4 = true ↔ hex.data.take 1 = ['0']) := by
  refine ⟨meets_difficulty_iff hex d, ?_, ?_⟩
  · intro hd
    have h4 : d / 4 = 0 := by omega
    rw [meets_difficulty_iff, h4]
    simp
  · have h := meets_difficulty_iff hex 4
    simpa using h

/-- C3 witness: a concrete hash string and difficulty 3 (no zero required). -/
theorem c3_meets_difficulty_quantized_witness :
    meets_difficulty (String.mk ['0', 'a']) 3 = true :=
  (c3_meets_difficulty_quantized (String.mk ['0', 'a']) 3).2.1 (by decide)

-- ---------------------------------------------------------------------------
-- Claim C10 (save_block frame property)
-- ---------------------------------------------------------------------------

/-- C10: `save_block` writes only under the block's hash key and "latest";
every other key is unchanged. -/
theorem c10_save_block_frame (b : Block) (db : Store) (k : String)
    (h1 : k ≠ latestKey) (h2 : k ≠ b.hash) : save_block b db k = db k := by
  simp [save_block, h1, h2]

/-- C10 witness: a key distinct from the block hash and "latest" reads the
same before and after a save. -/
theorem c10_save_block_frame_witness :
    save_block blockB emptyStore (String.mk ['z']) = emptyStore (String.mk ['z']) :=
  c10_save_block_frame blockB emptyStore (String.mk ['z']) (by decide) (by decide)

-- ---------------------------------------------------------------------------
-- Claim C8 (header hash shape)
-- ---------------------------------------------------------------------------

/-- C8: `hash_block_header` always yields exactly 64 characters, all of them
lowercase hexadecimal digits. -/
theorem c8_hash_block_header_hex (h : BlockHeader) :
    (hash_block_header h).length = 64 ∧
    (hash_block_header h).data.all isLowerHex = true :=
  ⟨hash_block_header_length h, hash_block_header_lower h⟩

-- ---------------------------------------------------------------------------
-- Claim C5 (save/get roundtrip)
-- ---------------------------------------------------------------------------

/-- C5 counterexample: for a block whose hash field is the literal "latest",
the pointer write clobbers the block record, and `get_latest` after
`save_block` fails with a decode error instead of returning the block. -/
theorem c5_counterexample :
    get_latest (save_block blockLatest emptyStore) = Except.error () ∧
    ¬get_latest (save_block blockLatest emptyStore) = Except.ok (some blockLatest) := by
  refine ⟨rfl, ?_⟩
  intro h
  rw [show get_latest (save_block blockLatest emptyStore) = Except.error () from rfl] at h
  exact Except.noConfusion h

/-- C5 (amended): for every block whose hash is not the literal "latest" and
every starting store, `save_block` followed by `get_latest` returns a block
deep-equal to the saved one. -/
theorem c5_save_get_roundtrip (b : Block) (db : Store) (hb : b.hash ≠ latestKey) :
    get_latest (save_block b db) = Except.ok (some b) := by
  have h1 : (save_block b db) latestKey = some b.hash := by simp [save_block]
  have h2 : (save_block b db) b.hash = some (encodeBlock b) := by simp [save_block, hb]
  simp [get_latest, h1, h2, decode_encode]

/-- C5 witness: a concrete block saved into the empty store is returned by
`get_latest`. -/
theorem c5_save_get_roundtrip_witness :
    get_latest (save_block blockB emptyStore) = Except.ok (some blockB) :=
  c5_save_get_roundtrip blockB emptyStore (by decide)

-- ---------------------------------------------------------------------------
-- Claim C6 (two chained saves)
-- ---------------------------------------------------------------------------

/-- C6 counterexample: two distinct parent-linked blocks sharing the hash
key "a" — after both saves the earlier block is no longer retrievable by
its hash key (the later block overwrote it). -/
theorem c6_counterexample :
    blockE.header.parent_hash = blockD.hash ∧
    blockD ≠ blockE ∧
    retrieveBlock (save_block blockE (save_block blockD emptyStore)) blockD.hash =
      some blockE ∧
    ¬retrieveBlock (save_block blockE (save_block blockD emptyStore)) blockD.hash =
      some blockD := by
  have hb : (save_block blockE (save_block blockD emptyStore)) blockD.hash =
      some (encodeBlock blockE) := rfl
  have hr : retrieveBlock (save_block blockE (save_block blockD emptyStore)) blockD.hash =
      some blockE := by
    simp only [retrieveBlock, hb, decode_encode]
  refine ⟨rfl, by decide, hr, ?_⟩
  rw [hr]
  intro h
  have : blockE = blockD := Option.some.inj h
  exact absurd this (by decide)

/-- C6 (amended): for parent-linked blocks with distinct hashes, neither of
which uses the reserved key "latest", saving both leaves the second as the
latest block while the first remains retrievable under its own hash key. -/
theorem c6_two_saves (b1 b2 : Block) (db : Store)
    (_hp : b2.header.parent_hash = b1.hash)
    (h12 : b1.hash ≠ b2.hash) (h1l : b1.hash ≠ latestKey) (h2l : b2.hash ≠ latestKey) :
    get_latest (save_block b2 (save_block b1 db)) = Except.ok (some b2) ∧
    (save_block b2 (save_block b1 db)) b1.hash = some (encodeBlock b1) ∧
    retrieveBlock (save_block b2 (save_block b1 db)) b1.hash = some b1 := by
  have hlat : (save_block b2 (save_block b1 db)) latestKey = some b2.hash := by
    simp [save_block]
  have hb2 : (save_block b2 (save_block b1 db)) b2.hash = some (encodeBlock b2) := by
    simp [save_block, h2l]
  have hb1 : (save_block b2 (save_block b1 db)) b1.hash = some (encodeBlock b1) := by
    simp [save_block, h1l, h12]
  refine ⟨?_, hb1, ?_⟩
  · simp [get_latest, hlat, hb2, decode_encode]
  · simp [retrieveBlock, hb1, decode_encode]

/-- C6 witness: concrete parent and child blocks with hash keys "b" and "c"
saved in order into the empty store. -/
theorem c6_two_saves_witness :
    get_latest (save_block blockC (save_block blockB emptyStore)) = Except.ok (some blockC) ∧
    (save_block blockC (save_block blockB emptyStore)) blockB.hash =
      some (encodeBlock blockB) ∧
    retrieveBlock (save_block blockC (save_block blockB emptyStore)) blockB.hash =
      some blockB :=
  c6_two_saves blockB blockC emptyStore rfl (by decide) (by decide) (by decide)

-- ---------------------------------------------------------------------------
-- Claim C2 (mine_block postcondition)
-- ---------------------------------------------------------------------------

/-- C2: whenever `mine_block` returns a block, that block's hash meets the
header's difficulty, its merkle root is the merkle root of the input
transactions, its transaction list is the input list, and its hash is the
header hash of its own header. -/
theorem c2_mine_block_postcondition (fuel : Nat) (stream : Nat → Nat)
    (tmpl : BlockHeader) (txs : List Transaction) (b : Block) :
    mine_block fuel stream tmpl txs = some b →
      meets_difficulty b.hash b.header.difficulty = true ∧
      b.header.merkle_root = merkle_root txs ∧
      b.txs = txs ∧
      b.hash = hash_block_header b.header := by
  induction fuel generalizing b with
  | zero => intro h; simp [mine_block] at h
  | succ fuel ih =>
    intro h
    rw [mine_block] at h
    split at h
    · rename_i hc
      obtain rfl := (Option.some.inj h).symm
      exact ⟨hc, rfl, rfl, rfl⟩
    · exact ih b h

/-- A concrete header template with difficulty 0 for the C2 witness. -/
def mineTmpl0 : BlockHeader :=
  ⟨String.mk ['0'], String.mk [], 0, 0, 0, String.mk ['m']⟩

/-- The block `mine_block` produces from `mineTmpl0` at nonce 5. -/
def mineBlk0 : Block :=
  { header := { mineTmpl0 with nonce := 5, merkle_root := merkle_root [] },
    txs := [],
    hash := hash_block_header { mineTmpl0 with nonce := 5, merkle_root := merkle_root [] } }

/-- C2 witness: at difficulty 0 the first drawn nonce is accepted and the
returned block satisfies the postcondition. -/
theorem c2_mine_block_postcondition_witness :
    mine_block 1 (fun _ => 5) mineTmpl0 [] = some mineBlk0 ∧
    meets_difficulty mineBlk0.hash mineBlk0.header.difficulty = true ∧
    mineBlk0.header.merkle_root = merkle_root [] ∧
    mineBlk0.txs = [] ∧
    mineBlk0.hash = hash_block_header mineBlk0.header := by
  have hm : mine_block 1 (fun _ => 5) mineTmpl0 [] = some mineBlk0 := by
    rw [mine_block]
    rfl
  exact ⟨hm, c2_mine_block_postcondition 1 (fun _ => 5) mineTmpl0 [] mineBlk0 hm⟩

-- ---------------------------------------------------------------------------
-- Claim C9 (unsatisfiable difficulty)
-- ---------------------------------------------------------------------------

/-- C9: when the difficulty demands more than 64 leading zero characters,
no 64-character hash meets it, and `mine_block` can never return at such a
template difficulty (it exhausts any amount of fuel). -/
theorem c9_unreachable_difficulty (d : Nat) (hd : 64 < d / 4) :
    (∀ hex : String, hex.length = 64 → meets_difficulty hex d = false) ∧
    (∀ (fuel : Nat) (stream : Nat → Nat) (tmpl : BlockHeader) (txs : List Transaction),
      tmpl.difficulty = d → mine_block fuel stream tmpl txs = none) := by
  have hmeets : ∀ hex : String, hex.length = 64 → meets_difficulty hex d = false := by
    intro hex hl
    exact meets_difficulty_false_of_short hex d (by omega)
  refine ⟨hmeets, ?_⟩
  intro fuel stream tmpl txs htd
  induction fuel with
  | zero => rw [mine_block]
  | succ fuel ih =>
    rw [mine_block, htd]
    have hfalse := hmeets
      (hash_block_header ⟨tmpl.parent_hash, merkle_root txs, tmpl.timestamp,
        stream fuel, d, tmpl.miner⟩) (hash_block_header_length _)
    rw [hfalse]
    simp only [Bool.false_eq_true, reduceIte]
    exact ih

/-- A concrete header template with difficulty 260 for the C9 witness. -/
def tmpl260 : BlockHeader :=
  ⟨String.mk ['0'], String.mk [], 0, 0, 260, String.mk ['m']⟩

/-- C9 witness: difficulty 260 demands 65 zeros; a concrete 64-character
string fails the predicate and mining with fuel returns nothing. -/
theorem c9_unreachable_difficulty_witness :
    meets_difficulty (String.mk (List.replicate 64 'a')) 260 = false ∧
    mine_block 2 (fun _ => 0) tmpl260 [] = none :=
  ⟨(c9_unreachable_difficulty 260 (by decide)).1 (String.mk (List.replicate 64 'a')) rfl,
   (c9_unreachable_difficulty 260 (by decide)).2 2 (fun _ => 0) tmpl260 [] rfl⟩

-- ---------------------------------------------------------------------------
-- Claim C4 (merkle_root folding shape)
-- ---------------------------------------------------------------------------

/-- C4: `merkle_root` of the empty list is the empty string; on non-empty
lists it hashes one leaf per transaction in input order and folds adjacent
pairs (hashing the concatenated hex text, an odd trailing leaf carried
unchanged) until a single root remains — shown structurally for lists of
one to three and five transactions (five exercises an odd carry across two
levels). -/
theorem c4_merkle_root_fold :
    merkle_root [] = String.mk [] ∧
    (∀ t1, merkle_root [t1] = txLeaf t1) ∧
    (∀ t1 t2, merkle_root [t1, t2] = hashPair (txLeaf t1) (txLeaf t2)) ∧
    (∀ t1 t2 t3, merkle_root [t1, t2, t3] =
      hashPair (hashPair (txLeaf t1) (txLeaf t2)) (txLeaf t3)) ∧
    (∀ t1 t2 t3 t4 t5, merkle_root [t1, t2, t3, t4, t5] =
      hashPair
        (hashPair (hashPair (txLeaf t1) (txLeaf t2)) (hashPair (txLeaf t3) (txLeaf t4)))
        (txLeaf t5)) := by
  refine ⟨rfl, fun t1 => ?_, fun t1 t2 => ?_, fun t1 t2 t3 => ?_, fun t1 t2 t3 t4 t5 => ?_⟩ <;>
    simp [merkle_root, merkleFold, merkleLevel]

-- ---------------------------------------------------------------------------
-- Claim C7 (genesis block)
-- ---------------------------------------------------------------------------

set_option maxRecDepth 10000 in
/-- C7: `make_genesis` produces parent hash "0", no transactions, the empty
merkle root (the merkle root of the empty list), nonce 0, the given
difficulty and timestamp, and a hash computed by `hash_block_header` on its
own header; concretely at difficulty 256 the produced hash does not meet
the recorded difficulty, showing the check is bypassed. -/
theorem c7_make_genesis (now : Int) (d : Nat) :
    (make_genesis now d).header.parent_hash = String.mk ['0'] ∧
    (make_genesis now d).txs = [] ∧
    (make_genesis now d).header.merkle_root = String.mk [] ∧
    (make_genesis now d).header.merkle_root = merkle_root [] ∧
    (make_genesis now d).header.nonce = 0 ∧
    (make_genesis now d).header.difficulty = d ∧
    (make_genesis now d).header.timestamp = now ∧
    (make_genesis now d).header.miner = genesisMiner ∧
    (make_genesis now d).hash = hash_block_header (make_genesis now d).header ∧
    meets_difficulty (make_genesis 0 256).hash 256 = false :=
  ⟨rfl, rfl, rfl, rfl, rfl, rfl, rfl, rfl, rfl, by decide⟩
